import Mathlib

/-
Verification development for the context-assembly and incremental-summarization
core of the ai-conversation-memory repository.

The embedded source files are src/context.py and src/llm_utils.py together with
the constants of src/config.py.  The database module the source imports
(message log, summary cache, token estimator) is not present under src; those
collaborators are modelled from the specification (sections 4.1 and 6), each
with a doc comment saying so.

The external generation model is modelled as an oracle of type LLM: a function
from the request messages to an optional response, where none models a failed
call (network error, timeout, non-success status).  Every function that may
call the oracle additionally returns a Trace: the chronological list of
condensation-service invocations it performed, each recorded with the
arguments of the source-level call (generate_summary or compress_message).
-/

set_option linter.unusedVariables false

/-- A chat message: the dict with role and content keys used throughout the
source.  Also serves as the ephemeral ContextSegment of the spec. -/
structure Msg where
  role : String
  content : String
deriving DecidableEq, Repr

/-- A condensation-service invocation, recorded with its source-level
arguments: generate_summary over a message slice, or compress_message over a
single long text. -/
inductive Call where
  | summarize (messages : List Msg) (max_tokens : Nat)
  | compress (content : String) (target_tokens : Nat)
deriving DecidableEq, Repr

/-- True for per-turn compression calls, false for summarization calls. -/
def Call.isCompress : Call → Bool
  | .compress _ _ => true
  | .summarize _ _ => false

/-- Chronological record of condensation-service calls made during a run. -/
abbrev Trace := List Call

/-- The external generation model: maps the request messages to a response, or
none when the call fails.  The source call_llm sends only the model name and
the messages (its max_tokens and temperature parameters are not put into the
payload), so the oracle depends on the messages alone. -/
abbrev LLM := List Msg → Option String

-- Constants from src/config.py (Strategy Settings).
def RECENT_MESSAGE_COUNT : Nat := 10
def SUMMARY_MAX_TOKENS : Nat := 2000
def MESSAGE_COMPRESS_THRESHOLD : Nat := 2500
def MESSAGE_COMPRESSED_SIZE : Nat := 800
def MAX_INPUT_TOKENS : Nat := 50000

/-- Base instruction text from src/config.py.  The source literal is a long
narrative prompt; its exact wording is never inspected by the verified logic
(it is an opaque constant prepended to the summary), so it is abridged here to
a representative sentence. -/
def STORY_SYSTEM_PROMPT : String :=
  "You are a master of interactive, continuous storytelling."

/-- Summary instruction from src/config.py. -/
def SUMMARY_PROMPT : String :=
  "Analyze this conversation and create a comprehensive story summary that captures:\n\n1. Main characters and their current status\n2. Key plot developments and events\n3. Current setting and situation\n4. Important details and unresolved threads\n\nKeep it concise but informative. Format as flowing prose, not bullet points."

/-- Compression instruction from src/config.py. -/
def COMPRESS_PROMPT : String :=
  "Summarize the following story segment concisely while preserving key plot points, character actions, and important details. Keep it under 200 words:"

/-- Modelled from the spec: the token estimator of section 4.1, provided by
the missing database module.  A non-negative integer, monotonically
non-decreasing with text length, proportional to character count; the ratio of
four characters per token matches the truncation fallback target_tokens * 4 in
src/llm_utils.py. -/
def estimate_tokens (text : String) : Nat := text.length / 4

/-- Python character slicing content[:n], used by the compression fallback. -/
def strTake (s : String) (n : Nat) : String := String.mk (s.data.take n)

/-- Modelled from the spec: the per-session state owned by the missing
database module, section 6.  messages is the ordered append-only message log
(positions 1..n by list index); cache is the summary-record store, each record
a coverage paired with the stored summary text. -/
structure Session where
  messages : List Msg
  cache : List (Nat × String)
deriving DecidableEq, Repr

/-- Modelled from the spec: Message Log count(session), section 6. -/
def count_messages (s : Session) : Nat := s.messages.length

/-- Modelled from the spec: Message Log all(session), section 6. -/
def get_all_messages (s : Session) : List Msg := s.messages

/-- Modelled from the spec: Message Log lastN(session, n), section 6; the last
n turns in chronological order (all of them when fewer exist). -/
def get_last_n_messages (s : Session) (n : Nat) : List Msg :=
  s.messages.drop (s.messages.length - n)

/-- Modelled from the spec: Message Log range(session, fromPos, toPos),
section 6; 1-indexed, inclusive on both ends, chronological. -/
def get_messages_range (s : Session) (fromPos toPos : Nat) : List Msg :=
  (s.messages.take toPos).drop (fromPos - 1)

/-- Modelled from the spec: Summary Cache get(session, coverage), section 6;
exact coverage match only, no closest-below fallback. -/
def get_cached_summary (s : Session) (coverage : Nat) : Option String :=
  Option.map (fun r => r.2) (List.find? (fun r => r.1 == coverage) s.cache)

/-- One step of the fold selecting the record of greatest coverage (the first
such record when coverages tie). -/
def latestStep (acc : Option (Nat × String)) (r : Nat × String) : Option (Nat × String) :=
  match acc with
  | none => some r
  | some b => if b.1 < r.1 then some r else some b

/-- Fold selecting the record of greatest coverage from a record list. -/
def latestAux (l : List (Nat × String)) : Option (Nat × String) :=
  l.foldl latestStep none

/-- Modelled from the spec: Summary Cache getLatest(session), section 6; the
stored record with greatest coverage, if any. -/
def get_latest_cached_summary (s : Session) : Option (Nat × String) :=
  latestAux s.cache

/-- Modelled from the spec: Summary Cache put(session, coverage, text),
section 6.  The cache is keyed by (session, coverage): put replaces the record
stored under that coverage, or appends a fresh record when none exists. -/
def cache_summary (s : Session) (coverage : Nat) (text : String) : Session :=
  if s.cache.any (fun r => r.1 == coverage) then
    Session.mk s.messages
      (s.cache.map (fun r => if r.1 == coverage then (coverage, text) else r))
  else
    Session.mk s.messages (s.cache ++ [(coverage, text)])

/-- The request payload generate_summary builds in src/llm_utils.py lines
39-47: the summary system prompt plus the formatted conversation text. -/
def summaryRequest (messages : List Msg) : List Msg :=
  [Msg.mk "system" SUMMARY_PROMPT,
   Msg.mk "user" ("Summarize this story conversation:\n\n" ++
     messages.foldl (fun acc msg => acc ++ msg.role ++ ": " ++ msg.content ++ "\n\n") "")]

/-- generate_summary from src/llm_utils.py lines 37-54: one condensation call
over the slice; on failure it falls back to the fixed placeholder string. -/
def generate_summary (llm : LLM) (messages : List Msg) (max_tokens : Nat) : String × Trace :=
  match llm (summaryRequest messages) with
  | some summary => (summary, [Call.summarize messages max_tokens])
  | none => ("Story context available.", [Call.summarize messages max_tokens])

/-- The request payload compress_message builds in src/llm_utils.py lines
59-62. -/
def compressRequest (content : String) : List Msg :=
  [Msg.mk "system" COMPRESS_PROMPT, Msg.mk "user" content]

/-- compress_message from src/llm_utils.py lines 57-70: one condensation call
over the text; on failure it falls back to the character truncation
content[:target_tokens * 4]. -/
def compress_message (llm : LLM) (content : String) (target_tokens : Nat) : String × Trace :=
  match llm (compressRequest content) with
  | some compressed => (compressed, [Call.compress content target_tokens])
  | none => (strTake content (target_tokens * 4), [Call.compress content target_tokens])

/-- Provenance marker the source prepends to compressed turns,
src/context.py line 31. -/
def COMPRESS_MARKER : String := "[Previous scene, compressed]: "

/-- compress_if_needed from src/context.py lines 22-34: turns over the
threshold are condensed and wrapped with the provenance marker; others are
returned unchanged with no call. -/
def compress_if_needed (llm : LLM) (message : Msg) : Msg × Trace :=
  let token_count := estimate_tokens message.content
  if MESSAGE_COMPRESS_THRESHOLD < token_count then
    let c := compress_message llm message.content MESSAGE_COMPRESSED_SIZE
    (Msg.mk message.role (COMPRESS_MARKER ++ c.1), c.2)
  else (message, [])

/-- The list comprehension [compress_if_needed(msg) for msg in messages] used
at src/context.py lines 88 and 111, with the call traces concatenated in
order. -/
def compress_all (llm : LLM) (messages : List Msg) : List Msg × Trace :=
  match messages with
  | [] => ([], [])
  | m :: rest =>
    let c := compress_if_needed llm m
    let r := compress_all llm rest
    (c.1 :: r.1, c.2 ++ r.2)

/-- generate_summary_incremental from src/context.py lines 37-73. -/
def generate_summary_incremental (llm : LLM) (session : Session) (target_coverage : Nat) : String × Trace :=
  match get_latest_cached_summary session with
  | some (prev_coverage, prev_summary) =>
    if target_coverage ≤ prev_coverage then (prev_summary, [])
    else
      let new_messages := get_messages_range session (prev_coverage + 1) target_coverage
      if new_messages.isEmpty then (prev_summary, [])
      else
        let r1 := generate_summary llm new_messages 1000
        let combined := prev_summary ++ "\n\nRecent developments: " ++ r1.1
        if SUMMARY_MAX_TOKENS < estimate_tokens combined then
          let r2 := generate_summary llm (get_messages_range session 1 target_coverage) SUMMARY_MAX_TOKENS
          (r2.1, r1.2 ++ r2.2)
        else (combined, r1.2)
  | none =>
    generate_summary llm (get_messages_range session 1 target_coverage) SUMMARY_MAX_TOKENS

/-- The incremental summarization algorithm exactly as worded in section 4.3
of the spec; the spec-side definition the refinement claim C1 compares the
source function against.  Case 2 of the spec (no previous record) condenses
the whole range; case 3 (previous record already sufficient) returns its text
with no call; case 4 (previous record behind) always condenses the delta and
concatenates, re-condensing the whole range when the concatenation exceeds the
summary budget. -/
def summarize_spec (llm : LLM) (session : Session) (target_coverage : Nat) : String × Trace :=
  match get_latest_cached_summary session with
  | some (prev_coverage, prev_summary) =>
    if target_coverage ≤ prev_coverage then (prev_summary, [])
    else
      let r1 := generate_summary llm (get_messages_range session (prev_coverage + 1) target_coverage) 1000
      let combined := prev_summary ++ "\n\nRecent developments: " ++ r1.1
      if SUMMARY_MAX_TOKENS < estimate_tokens combined then
        let r2 := generate_summary llm (get_messages_range session 1 target_coverage) SUMMARY_MAX_TOKENS
        (r2.1, r1.2 ++ r2.2)
      else (combined, r1.2)
  | none =>
    generate_summary llm (get_messages_range session 1 target_coverage) SUMMARY_MAX_TOKENS

/-- The synthetic system segment assembled at src/context.py lines 114-116 and
127-129: the base instruction concatenated with the summary. -/
def systemSegment (summary : String) : Msg :=
  Msg.mk "system" (STORY_SYSTEM_PROMPT ++ "\n\nStory so far: " ++ summary)

/-- The summary acquisition step of build_context, src/context.py lines
96-105: exact-coverage cache lookup; on a miss (no record, or a record whose
text is empty, which Python treats as falsy) invoke the incremental summarizer
and store its result under (session, old_message_count).  Returns the summary,
the updated session, and the calls made. -/
def summary_step (llm : LLM) (s : Session) (old_message_count : Nat) : String × Session × Trace :=
  let r := generate_summary_incremental llm s old_message_count
  let regen : String × Session × Trace := (r.1, cache_summary s old_message_count r.1, r.2)
  match get_cached_summary s old_message_count with
  | none => regen
  | some t => if t = "" then regen else (t, s, [])

/-- Sum of token estimates over a segment list, src/context.py line 120. -/
def context_tokens (l : List Msg) : Nat :=
  (l.map (fun m => estimate_tokens m.content)).sum

/-- build_context from src/context.py lines 76-132, with the safety ceiling
left as a parameter so that independence from it can be stated; the source
instantiates it with MAX_INPUT_TOKENS.  Returns the assembled segment list,
the updated session, and the chronological trace of condensation calls. -/
def build_context_max (max_input : Nat) (llm : LLM) (s : Session) (current_prompt : String) :
    List Msg × Session × Trace :=
  let total_messages := count_messages s
  if total_messages ≤ RECENT_MESSAGE_COUNT then
    let r := compress_all llm (get_all_messages s)
    (r.1, s, r.2)
  else
    let old_message_count := total_messages - RECENT_MESSAGE_COUNT
    let st := summary_step llm s old_message_count
    let ra := compress_all llm (get_last_n_messages s RECENT_MESSAGE_COUNT)
    let context := systemSegment st.1 :: ra.1
    if max_input < context_tokens context then
      (systemSegment st.1 :: ra.1.drop (ra.1.length - 10), st.2.1, st.2.2 ++ ra.2)
    else (context, st.2.1, st.2.2 ++ ra.2)

/-- build_context as the source runs it, with the MAX_INPUT_TOKENS ceiling. -/
def build_context (llm : LLM) (s : Session) (current_prompt : String) :
    List Msg × Session × Trace :=
  build_context_max MAX_INPUT_TOKENS llm s current_prompt

/-- The normally assembled long-path context of src/context.py lines 114-117:
system segment carrying the summary, then the compressed recent window. -/
def assembled_context (llm : LLM) (s : Session) : List Msg :=
  systemSegment (summary_step llm s (count_messages s - RECENT_MESSAGE_COUNT)).1 ::
    (compress_all llm (get_last_n_messages s RECENT_MESSAGE_COUNT)).1

/-- The emergency rebuild of src/context.py lines 127-130: the same system
segment plus the last 10 already-compressed recent segments. -/
def emergency_context (llm : LLM) (s : Session) : List Msg :=
  systemSegment (summary_step llm s (count_messages s - RECENT_MESSAGE_COUNT)).1 ::
    (compress_all llm (get_last_n_messages s RECENT_MESSAGE_COUNT)).1.drop
      ((compress_all llm (get_last_n_messages s RECENT_MESSAGE_COUNT)).1.length - 10)

/-- An oracle whose every call fails: the always-degraded condensation
service. -/
def llmNone : LLM := fun _ => none

/-- A string of n copies of the letter a, used to build concrete oversized
inputs. -/
def bigA (n : Nat) : String := String.mk (List.replicate n 'a')

/-- A short concrete turn, below every threshold. -/
def msgHi : Msg := Msg.mk "user" "hi"

/-- Concrete session for the size-ceiling counterexample: eleven short turns
and a cached coverage-1 summary of 200004 characters. -/
def sessionBig : Session :=
  Session.mk [msgHi, msgHi, msgHi, msgHi, msgHi, msgHi, msgHi, msgHi, msgHi, msgHi, msgHi]
    [(1, bigA 200004)]

/-- An oracle that always answers with the fixed text S. -/
def llmS : LLM := fun _ => some "S"

/-- An oracle that always answers with the fixed text ok. -/
def llmOk : LLM := fun _ => some "ok"

/-- An oracle that always answers with 10200 copies of the letter a. -/
def llmEcho : LLM := fun _ => some (bigA 10200)

/-- A concrete over-threshold turn: 10004 characters, estimated 2501 tokens. -/
def msgLong : Msg := Msg.mk "user" (bigA 10004)

/-- Thirteen short turns and an empty summary cache. -/
def sessionThirteen : Session :=
  Session.mk [msgHi, msgHi, msgHi, msgHi, msgHi, msgHi, msgHi, msgHi, msgHi, msgHi, msgHi,
    msgHi, msgHi] []

/-- Thirteen short turns and a cached coverage-1 summary P. -/
def sessionThirteenP : Session :=
  Session.mk [msgHi, msgHi, msgHi, msgHi, msgHi, msgHi, msgHi, msgHi, msgHi, msgHi, msgHi,
    msgHi, msgHi] [(1, "P")]

-- Helper lemmas about the concrete big string.

theorem bigA_length (n : Nat) : (bigA n).length = n := List.length_replicate n 'a'

theorem bigA_ne_empty (n : Nat) (h : 0 < n) : bigA n ≠ "" := by
  intro he
  have := congrArg String.length he
  rw [bigA_length] at this
  simp [String.length] at this
  omega

-- Helper lemmas about compress_all.

theorem compress_all_fst (llm : LLM) (l : List Msg) :
    (compress_all llm l).1 = l.map (fun m => (compress_if_needed llm m).1) := by
  induction l with
  | nil => rfl
  | cons m rest ih => simp [compress_all, ih]

theorem compress_all_trace (llm : LLM) (l : List Msg) :
    ∀ c ∈ (compress_all llm l).2, c.isCompress = true := by
  induction l with
  | nil => simp [compress_all]
  | cons m rest ih =>
    intro c hc
    simp [compress_all] at hc
    rcases hc with hc | hc
    · unfold compress_if_needed at hc
      by_cases hm : MESSAGE_COMPRESS_THRESHOLD < estimate_tokens m.content
      · rw [if_pos hm] at hc
        unfold compress_message at hc
        cases h : llm (compressRequest m.content) <;> rw [h] at hc <;>
          simp at hc <;> simp [hc, Call.isCompress]
      · rw [if_neg hm] at hc
        simp at hc
    · exact ih c hc

theorem compress_all_id (llm : LLM) (l : List Msg)
    (h : ∀ m ∈ l, estimate_tokens m.content ≤ MESSAGE_COMPRESS_THRESHOLD) :
    compress_all llm l = (l, []) := by
  induction l with
  | nil => rfl
  | cons m rest ih =>
    have hm : ¬ MESSAGE_COMPRESS_THRESHOLD < estimate_tokens m.content := by
      have := h m (by simp)
      omega
    simp [compress_all, compress_if_needed, hm, ih fun x hx => h x (by simp [hx])]

-- Helper lemmas about the greatest-coverage fold.

theorem latestStep_none (a : Nat × String) : latestStep none a = some a := rfl

theorem latestStep_some (b a : Nat × String) :
    latestStep (some b) a = if b.1 < a.1 then some a else some b := rfl

theorem latestAux_some (l : List (Nat × String)) (b : Nat × String) :
    ∃ r, List.foldl latestStep (some b) l = some r := by
  induction l generalizing b with
  | nil => exact ⟨b, rfl⟩
  | cons a t ih =>
    simp only [List.foldl_cons, latestStep_some]
    by_cases hb : b.1 < a.1
    · rw [if_pos hb]; exact ih a
    · rw [if_neg hb]; exact ih b

theorem latestAux_none_iff (l : List (Nat × String)) : latestAux l = none ↔ l = [] := by
  constructor
  · intro h
    cases l with
    | nil => rfl
    | cons a t =>
      unfold latestAux at h
      simp only [List.foldl_cons] at h
      obtain ⟨r, hr⟩ := latestAux_some t a
      rw [show latestStep none a = some a from rfl] at h
      rw [hr] at h
      exact absurd h (by simp)
  · intro h; rw [h]; rfl

theorem latestAux_append_single (l : List (Nat × String)) (r : Nat × String) :
    latestAux (l ++ [r]) = latestStep (latestAux l) r := by
  unfold latestAux
  rw [List.foldl_append]
  rfl

theorem latestAux_map (l : List (Nat × String)) (f : Nat × String → Nat × String)
    (hf : ∀ x, (f x).1 = x.1) :
    latestAux (l.map f) = Option.map f (latestAux l) := by
  suffices h : ∀ acc, List.foldl latestStep (Option.map f acc) (l.map f) =
      Option.map f (List.foldl latestStep acc l) by
    simpa using h none
  induction l with
  | nil => intro acc; rfl
  | cons a t ih =>
    intro acc
    simp only [List.map_cons, List.foldl_cons]
    have hstep : latestStep (Option.map f acc) (f a) = Option.map f (latestStep acc a) := by
      cases acc with
      | none => rfl
      | some b =>
        show latestStep (some (f b)) (f a) = Option.map f (latestStep (some b) a)
        rw [latestStep_some, latestStep_some, hf a, hf b]
        by_cases hb : b.1 < a.1
        · rw [if_pos hb, if_pos hb]; rfl
        · rw [if_neg hb, if_neg hb]; rfl
    rw [hstep, ih]

theorem latestAux_ge (l : List (Nat × String)) (r : Nat × String)
    (h : latestAux l = some r) : ∀ x ∈ l, x.1 ≤ r.1 := by
  suffices hgen : ∀ (l : List (Nat × String)) (acc : Option (Nat × String)) (r : Nat × String),
      List.foldl latestStep acc l = some r →
      (∀ x ∈ l, x.1 ≤ r.1) ∧ (∀ b, acc = some b → b.1 ≤ r.1) from
    (hgen l none r h).1
  intro l
  induction l with
  | nil =>
    intro acc r h
    simp only [List.foldl_nil] at h
    refine ⟨by simp, fun b hb => ?_⟩
    rw [hb] at h
    have hbr : b.1 = r.1 := by injection h with h2; rw [h2]
    omega
  | cons a t ih =>
    intro acc r h
    simp only [List.foldl_cons] at h
    obtain ⟨hmem, hacc⟩ := ih (latestStep acc a) r h
    have hstep : ∀ b, latestStep acc a = some b → a.1 ≤ b.1 ∧ (∀ c, acc = some c → c.1 ≤ b.1) := by
      intro b hb
      cases acc with
      | none =>
        rw [latestStep_none] at hb
        have hab : a.1 = b.1 := by injection hb with h2; rw [h2]
        exact ⟨by omega, by simp⟩
      | some c =>
        rw [latestStep_some] at hb
        by_cases hc : c.1 < a.1
        · rw [if_pos hc] at hb
          have hab : a.1 = b.1 := by injection hb with h2; rw [h2]
          refine ⟨by omega, fun d hd => ?_⟩
          have hdc : d.1 = c.1 := by injection hd with h2; rw [h2]
          omega
        · rw [if_neg hc] at hb
          have hcb : c.1 = b.1 := by injection hb with h2; rw [h2]
          refine ⟨by omega, fun d hd => ?_⟩
          have hdc : d.1 = c.1 := by injection hd with h2; rw [h2]
          omega
    obtain ⟨b, hb⟩ : ∃ b, latestStep acc a = some b := by
      cases acc with
      | none => exact ⟨a, rfl⟩
      | some c =>
        rw [latestStep_some]
        by_cases hc : c.1 < a.1
        · rw [if_pos hc]; exact ⟨a, rfl⟩
        · rw [if_neg hc]; exact ⟨c, rfl⟩
    obtain ⟨hab, hcb⟩ := hstep b hb
    have hbr : b.1 ≤ r.1 := hacc b hb
    refine ⟨fun x hx => ?_, fun c hc => ?_⟩
    · rcases List.mem_cons.mp hx with rfl | hx2
      · omega
      · exact hmem _ hx2
    · have := hcb c hc
      omega

-- Helper lemmas about the summary cache.

theorem find?_map_replace (l : List (Nat × String)) (c : Nat) (v : String)
    (h : l.any (fun r => r.1 == c) = true) :
    (l.map (fun r => if r.1 == c then (c, v) else r)).find? (fun r => r.1 == c) = some (c, v) := by
  induction l with
  | nil => simp at h
  | cons a t ih =>
    by_cases ha : (a.1 == c) = true
    · simp only [List.map_cons, if_pos ha]
      have : ((c, v).1 == c) = true := by simp
      simp [List.find?, this]
    · have ht : t.any (fun r => r.1 == c) = true := by
        simp only [List.any_cons, ha, Bool.false_or] at h
        exact h
      simp only [List.map_cons, if_neg ha]
      rw [List.find?_cons_of_neg _ (by simpa using ha)]
      exact ih ht

theorem find?_none_of_any_false (l : List (Nat × String)) (c : Nat)
    (h : l.any (fun r => r.1 == c) = false) :
    l.find? (fun r => r.1 == c) = none := by
  rw [List.find?_eq_none]
  intro x hx
  simp only [List.any_eq_false] at h
  simpa using h x hx

theorem get_cached_cache_summary (s : Session) (c : Nat) (v : String) :
    get_cached_summary (cache_summary s c v) c = some v := by
  unfold get_cached_summary cache_summary
  by_cases hany : s.cache.any (fun r => r.1 == c) = true
  · rw [if_pos hany]
    simp only
    rw [find?_map_replace s.cache c v hany]
    rfl
  · rw [if_neg hany]
    simp only
    have hfalse : s.cache.any (fun r => r.1 == c) = false := by
      cases h2 : s.cache.any (fun r => r.1 == c)
      · rfl
      · exact absurd h2 hany
    rw [List.find?_append, find?_none_of_any_false s.cache c hfalse]
    simp [List.find?]

theorem cache_summary_all (s : Session) (c : Nat) (v : String) :
    ∀ r ∈ (cache_summary s c v).cache, r.1 = c → r.2 = v := by
  intro r hr hrc
  unfold cache_summary at hr
  by_cases hany : s.cache.any (fun rr => rr.1 == c) = true
  · rw [if_pos hany] at hr
    simp only [List.mem_map] at hr
    obtain ⟨x, hx, hfx⟩ := hr
    by_cases hxc : (x.1 == c) = true
    · rw [if_pos hxc] at hfx
      rw [← hfx]
    · rw [if_neg hxc] at hfx
      rw [← hfx] at hrc
      exact absurd (by simpa using hrc) (by simpa using hxc)
  · rw [if_neg hany] at hr
    simp only [List.mem_append, List.mem_singleton] at hr
    rcases hr with hr | hr
    · exact absurd (List.any_eq_true.mpr ⟨r, hr, by simp [hrc]⟩) hany
    · rw [hr]

theorem cache_summary_stable (s : Session) (c : Nat) (v : String)
    (hany : s.cache.any (fun r => r.1 == c) = true)
    (hall : ∀ r ∈ s.cache, r.1 = c → r.2 = v) :
    cache_summary s c v = s := by
  unfold cache_summary
  rw [if_pos hany]
  have hmap : s.cache.map (fun r => if r.1 == c then (c, v) else r) = s.cache := by
    have : s.cache.map (fun r => if r.1 == c then (c, v) else r) = s.cache.map id := by
      apply List.map_congr_left
      intro a ha
      obtain ⟨a1, a2⟩ := a
      by_cases hac : ((a1, a2).1 == c) = true
      · rw [if_pos hac]
        have h1 : a1 = c := by simpa using hac
        have h2 : a2 = v := hall (a1, a2) ha (by simpa using hac)
        rw [h1, h2]
        rfl
      · rw [if_neg hac]; rfl
    rw [this, List.map_id]
  rw [hmap]

theorem get_cached_any (s : Session) (c : Nat) (v : String)
    (h : get_cached_summary s c = some v) :
    s.cache.any (fun r => r.1 == c) = true := by
  unfold get_cached_summary at h
  cases hf : s.cache.find? (fun r => r.1 == c) with
  | none => rw [hf] at h; simp at h
  | some r =>
    rw [List.any_eq_true]
    have hp := List.find?_some hf
    exact ⟨r, List.mem_of_find?_eq_some hf, hp⟩

theorem cache_summary_messages (s : Session) (c : Nat) (v : String) :
    (cache_summary s c v).messages = s.messages := by
  unfold cache_summary
  by_cases hany : s.cache.any (fun r => r.1 == c) = true
  · rw [if_pos hany]
  · rw [if_neg hany]

-- Helper lemmas about the incremental summarizer and the summary step.

theorem gsi_latest_ge (llm : LLM) (s : Session) (old c : Nat) (t : String)
    (hl : get_latest_cached_summary s = some (c, t)) (hc : old ≤ c) :
    generate_summary_incremental llm s old = (t, []) := by
  unfold generate_summary_incremental
  rw [hl]
  simp [hc]

theorem gsi_none (llm : LLM) (s : Session) (old : Nat)
    (hl : get_latest_cached_summary s = none) :
    generate_summary_incremental llm s old =
      generate_summary llm (get_messages_range s 1 old) SUMMARY_MAX_TOKENS := by
  unfold generate_summary_incremental
  rw [hl]

theorem summary_step_hit (llm : LLM) (s : Session) (old : Nat) (t : String)
    (hc : get_cached_summary s old = some t) (ht : t ≠ "") :
    summary_step llm s old = (t, s, []) := by
  unfold summary_step
  rw [hc]
  simp [ht]

theorem summary_step_miss (llm : LLM) (s : Session) (old : Nat)
    (hc : get_cached_summary s old = none ∨ get_cached_summary s old = some "") :
    summary_step llm s old =
      ((generate_summary_incremental llm s old).1,
       cache_summary s old (generate_summary_incremental llm s old).1,
       (generate_summary_incremental llm s old).2) := by
  unfold summary_step
  rcases hc with hc | hc
  · rw [hc]
  · rw [hc]
    simp

theorem latest_after_put_empty (llm : LLM) (s : Session) (old : Nat)
    (hS : (generate_summary_incremental llm s old).1 = "") :
    ∃ c, old ≤ c ∧ get_latest_cached_summary (cache_summary s old "") = some (c, "") := by
  cases hl : get_latest_cached_summary s with
  | none =>
    have hcache : s.cache = [] := (latestAux_none_iff s.cache).mp hl
    refine ⟨old, Nat.le_refl _, ?_⟩
    unfold cache_summary
    rw [hcache]
    simp only [List.any_nil, Bool.false_eq_true, if_false, List.nil_append]
    rfl
  | some pr =>
    obtain ⟨prev, pt⟩ := pr
    have hl2 : latestAux s.cache = some (prev, pt) := hl
    by_cases hop : old ≤ prev
    · have hgsi : generate_summary_incremental llm s old = (pt, []) :=
        gsi_latest_ge llm s old prev pt hl hop
      have hpt : pt = "" := by rw [hgsi] at hS; exact hS
      subst hpt
      unfold cache_summary
      by_cases hany : s.cache.any (fun r => r.1 == old) = true
      · rw [if_pos hany]
        have hf : ∀ x : Nat × String,
            ((fun r : Nat × String => if r.1 == old then (old, ("" : String)) else r) x).1 = x.1 := by
          intro x
          by_cases hx : (x.1 == old) = true
          · simp only [if_pos hx]
            have hx2 : x.1 = old := by simpa using hx
            exact hx2.symm
          · simp only [if_neg hx]
        show ∃ c, old ≤ c ∧ latestAux (s.cache.map _) = some (c, "")
        rw [latestAux_map s.cache _ hf, hl2]
        by_cases hpo : (prev == old) = true
        · refine ⟨old, Nat.le_refl _, ?_⟩
          simp [hpo]
          simpa using hpo
        · refine ⟨prev, hop, ?_⟩
          simp [hpo]
          exact fun h => h.symm
      · rw [if_neg hany]
        show ∃ c, old ≤ c ∧ latestAux (s.cache ++ [(old, "")]) = some (c, "")
        rw [latestAux_append_single, hl2, latestStep_some, if_neg (by omega)]
        exact ⟨prev, hop, rfl⟩
    · have hany : s.cache.any (fun r => r.1 == old) = false := by
        cases h2 : s.cache.any (fun r => r.1 == old)
        · rfl
        · obtain ⟨x, hx, hpx⟩ := List.any_eq_true.mp h2
          have hge := latestAux_ge s.cache (prev, pt) hl2 x hx
          have hxo : x.1 = old := by simpa using hpx
          omega
      unfold cache_summary
      rw [if_neg (by rw [hany]; simp)]
      show ∃ c, old ≤ c ∧ latestAux (s.cache ++ [(old, "")]) = some (c, "")
      rw [latestAux_append_single, hl2, latestStep_some, if_pos (by omega)]
      exact ⟨old, Nat.le_refl _, rfl⟩

theorem summary_step_idem_regen (llm : LLM) (s : Session) (old : Nat)
    (hmiss : get_cached_summary s old = none ∨ get_cached_summary s old = some "") :
    summary_step llm (summary_step llm s old).2.1 old =
      ((summary_step llm s old).1, (summary_step llm s old).2.1, []) := by
  rw [summary_step_miss llm s old hmiss]
  simp only
  set S := (generate_summary_incremental llm s old).1 with hSdef
  have hget : get_cached_summary (cache_summary s old S) old = some S :=
    get_cached_cache_summary s old S
  by_cases hS : S = ""
  · obtain ⟨c, hoc, hl1⟩ := latest_after_put_empty llm s old (by rw [← hSdef]; exact hS)
    have hs1e : cache_summary s old S = cache_summary s old "" := by rw [hS]
    have hgsi2 : generate_summary_incremental llm (cache_summary s old S) old = ("", []) := by
      rw [hs1e]
      exact gsi_latest_ge llm _ old c "" hl1 hoc
    have hmiss2 : get_cached_summary (cache_summary s old S) old = some "" := by
      rw [← hS]; exact hget
    rw [summary_step_miss llm _ old (Or.inr hmiss2), hgsi2]
    simp only
    have hstable : cache_summary (cache_summary s old S) old "" = cache_summary s old S := by
      apply cache_summary_stable
      · exact get_cached_any _ old "" hmiss2
      · intro r hr hrc
        rw [cache_summary_all s old S r hr hrc, hS]
    rw [hstable, hS]
  · rw [summary_step_hit llm _ old S hget hS]

theorem summary_step_idem (llm : LLM) (s : Session) (old : Nat) :
    summary_step llm (summary_step llm s old).2.1 old =
      ((summary_step llm s old).1, (summary_step llm s old).2.1, []) := by
  cases hc : get_cached_summary s old with
  | none => exact summary_step_idem_regen llm s old (Or.inl hc)
  | some t =>
    by_cases ht : t = ""
    · subst ht
      exact summary_step_idem_regen llm s old (Or.inr hc)
    · rw [summary_step_hit llm s old t hc ht]
      simp only
      exact summary_step_hit llm s old t hc ht

theorem summary_step_messages (llm : LLM) (s : Session) (old : Nat) :
    (summary_step llm s old).2.1.messages = s.messages := by
  unfold summary_step
  cases hc : get_cached_summary s old with
  | none => exact cache_summary_messages s old _
  | some t =>
    by_cases ht : t = ""
    · simp only [if_pos ht]
      exact cache_summary_messages s old _
    · simp only [if_neg ht]

-- Structural lemmas about build_context.

theorem build_short (M : Nat) (llm : LLM) (s : Session) (p : String)
    (h : count_messages s ≤ RECENT_MESSAGE_COUNT) :
    build_context_max M llm s p =
      ((compress_all llm s.messages).1, s, (compress_all llm s.messages).2) := by
  unfold build_context_max get_all_messages
  rw [if_pos h]

theorem build_long (M : Nat) (llm : LLM) (s : Session) (p : String)
    (h : RECENT_MESSAGE_COUNT < count_messages s) :
    build_context_max M llm s p =
      (if M < context_tokens (assembled_context llm s) then emergency_context llm s
       else assembled_context llm s,
       (summary_step llm s (count_messages s - RECENT_MESSAGE_COUNT)).2.1,
       (summary_step llm s (count_messages s - RECENT_MESSAGE_COUNT)).2.2 ++
         (compress_all llm (get_last_n_messages s RECENT_MESSAGE_COUNT)).2) := by
  unfold build_context_max assembled_context emergency_context
  rw [if_neg (by omega)]
  dsimp only
  by_cases hM : M < context_tokens (systemSegment (summary_step llm s (count_messages s - RECENT_MESSAGE_COUNT)).1 :: (compress_all llm (get_last_n_messages s RECENT_MESSAGE_COUNT)).1)
  · rw [if_pos hM, if_pos hM]
  · rw [if_neg hM, if_neg hM]

theorem recent_length (s : Session) (h : RECENT_MESSAGE_COUNT < count_messages s) :
    (get_last_n_messages s RECENT_MESSAGE_COUNT).length = RECENT_MESSAGE_COUNT := by
  unfold get_last_n_messages
  unfold count_messages at h
  rw [List.length_drop]
  omega

theorem assembled_length (llm : LLM) (s : Session) (h : RECENT_MESSAGE_COUNT < count_messages s) :
    (compress_all llm (get_last_n_messages s RECENT_MESSAGE_COUNT)).1.length = RECENT_MESSAGE_COUNT := by
  rw [compress_all_fst, List.length_map, recent_length s h]

theorem emergency_eq_assembled (llm : LLM) (s : Session)
    (h : RECENT_MESSAGE_COUNT < count_messages s) :
    emergency_context llm s = assembled_context llm s := by
  unfold emergency_context assembled_context
  rw [assembled_length llm s h]
  simp [RECENT_MESSAGE_COUNT]

theorem build_long_out (M : Nat) (llm : LLM) (s : Session) (p : String)
    (h : RECENT_MESSAGE_COUNT < count_messages s) :
    (build_context_max M llm s p).1 = assembled_context llm s := by
  rw [build_long M llm s p h]
  simp only
  by_cases hM : M < context_tokens (assembled_context llm s)
  · rw [if_pos hM, emergency_eq_assembled llm s h]
  · rw [if_neg hM]

theorem build_long_state (M : Nat) (llm : LLM) (s : Session) (p : String)
    (h : RECENT_MESSAGE_COUNT < count_messages s) :
    (build_context_max M llm s p).2.1 =
      (summary_step llm s (count_messages s - RECENT_MESSAGE_COUNT)).2.1 := by
  rw [build_long M llm s p h]

theorem build_long_trace (M : Nat) (llm : LLM) (s : Session) (p : String)
    (h : RECENT_MESSAGE_COUNT < count_messages s) :
    (build_context_max M llm s p).2.2 =
      (summary_step llm s (count_messages s - RECENT_MESSAGE_COUNT)).2.2 ++
        (compress_all llm (get_last_n_messages s RECENT_MESSAGE_COUNT)).2 := by
  rw [build_long M llm s p h]

theorem count_messages_state (llm : LLM) (s : Session) (old : Nat) :
    count_messages (summary_step llm s old).2.1 = count_messages s := by
  unfold count_messages
  rw [summary_step_messages]

theorem get_last_n_state (llm : LLM) (s : Session) (old n : Nat) :
    get_last_n_messages (summary_step llm s old).2.1 n = get_last_n_messages s n := by
  unfold get_last_n_messages
  rw [summary_step_messages]

theorem assembled_context_state (llm : LLM) (s : Session) :
    assembled_context llm (summary_step llm s (count_messages s - RECENT_MESSAGE_COUNT)).2.1 =
      assembled_context llm s := by
  unfold assembled_context
  rw [count_messages_state, get_last_n_state]
  rw [show (summary_step llm (summary_step llm s (count_messages s - RECENT_MESSAGE_COUNT)).2.1
      (count_messages s - RECENT_MESSAGE_COUNT)).1 =
    (summary_step llm s (count_messages s - RECENT_MESSAGE_COUNT)).1 from by
    rw [summary_step_idem]]

-- Claim theorems.

/-- Claim C10: the output of build_context does not depend on the
current_prompt argument; two calls on the same session state with different
prompts return the same segment list, session, and trace.  The live user turn
is appended only by the caller in src/main.py. -/
theorem build_context_prompt_independent (llm : LLM) (s : Session) (p1 p2 : String) :
    build_context llm s p1 = build_context llm s p2 := rfl

/-- Claim C6: for a session with at most RECENT_MESSAGE_COUNT turns,
build_context returns exactly total_turns segments, each turn passed
individually through compress_if_needed in chronological order, with no
synthetic system segment; in particular the empty session yields the empty
list. -/
theorem build_context_short_replay (llm : LLM) (s : Session) (p : String)
    (h : count_messages s ≤ RECENT_MESSAGE_COUNT) :
    (build_context llm s p).1 = s.messages.map (fun m => (compress_if_needed llm m).1) ∧
    (build_context llm s p).1.length = count_messages s := by
  unfold build_context
  rw [build_short MAX_INPUT_TOKENS llm s p h]
  simp only
  refine ⟨compress_all_fst llm s.messages, ?_⟩
  rw [compress_all_fst, List.length_map]
  rfl

/-- Witness for C6 at the empty session. -/
theorem build_context_short_replay_witness :
    count_messages (Session.mk [] []) ≤ RECENT_MESSAGE_COUNT ∧
    (build_context llmNone (Session.mk [] []) "x").1 = [] := by
  refine ⟨by decide, ?_⟩
  have h := (build_context_short_replay llmNone (Session.mk [] []) "x" (by decide)).1
  simpa using h

/-- Claim C7: for a session with more than RECENT_MESSAGE_COUNT turns,
build_context returns exactly one synthetic system segment followed by the
compressed recent turns in chronological order, 1 + RECENT_MESSAGE_COUNT
segments in total.  This holds whether or not the emergency branch fires,
since the emergency rebuild keeps the last 10 of the 10 recent segments. -/
theorem build_context_long_shape (llm : LLM) (s : Session) (p : String)
    (h : RECENT_MESSAGE_COUNT < count_messages s) :
    (build_context llm s p).1 =
      systemSegment (summary_step llm s (count_messages s - RECENT_MESSAGE_COUNT)).1 ::
        (get_last_n_messages s RECENT_MESSAGE_COUNT).map (fun m => (compress_if_needed llm m).1) ∧
    (build_context llm s p).1.length = 1 + RECENT_MESSAGE_COUNT := by
  unfold build_context
  have hout := build_long_out MAX_INPUT_TOKENS llm s p h
  constructor
  · rw [hout]
    unfold assembled_context
    rw [compress_all_fst]
  · rw [hout]
    unfold assembled_context
    rw [List.length_cons, assembled_length llm s h]
    omega

/-- Witness for C7 at a session of thirteen short turns. -/
theorem build_context_long_shape_witness :
    RECENT_MESSAGE_COUNT < count_messages sessionThirteen ∧
    (build_context llmNone sessionThirteen "x").1.length = 1 + RECENT_MESSAGE_COUNT :=
  ⟨by decide, (build_context_long_shape llmNone sessionThirteen "x" (by decide)).2⟩

/-- Claim C4 (amended): a turn at or below the compression threshold is
returned byte-for-byte unchanged with no condensation call; a turn above it is
returned with the same role and content equal to the provenance marker
concatenated with the condensed text, which differs from the original content
whenever the original content does not itself begin with the provenance
marker. -/
theorem compress_if_needed_contract (llm : LLM) (m : Msg) :
    (estimate_tokens m.content ≤ MESSAGE_COMPRESS_THRESHOLD →
      compress_if_needed llm m = (m, [])) ∧
    (MESSAGE_COMPRESS_THRESHOLD < estimate_tokens m.content →
      (compress_if_needed llm m).1.role = m.role ∧
      (compress_if_needed llm m).1.content =
        COMPRESS_MARKER ++ (compress_message llm m.content MESSAGE_COMPRESSED_SIZE).1 ∧
      ((¬ ∃ rest, m.content = COMPRESS_MARKER ++ rest) → (compress_if_needed llm m).1 ≠ m)) := by
  constructor
  · intro h
    unfold compress_if_needed
    rw [if_neg (by omega)]
  · intro h
    unfold compress_if_needed
    rw [if_pos h]
    refine ⟨rfl, rfl, ?_⟩
    intro hnp heq
    have hcont := congrArg Msg.content heq
    exact hnp ⟨(compress_message llm m.content MESSAGE_COMPRESSED_SIZE).1, hcont.symm⟩

/-- Witness for C4 at a short turn, unchanged byte-for-byte. -/
theorem compress_if_needed_contract_witness :
    estimate_tokens msgHi.content ≤ MESSAGE_COMPRESS_THRESHOLD ∧
    compress_if_needed llmNone msgHi = (msgHi, []) :=
  ⟨by decide, (compress_if_needed_contract llmNone msgHi).1 (by decide)⟩

/-- Claim C4 counterexample: an over-threshold turn whose content already
begins with the provenance marker, with a service answer equal to the part
after the marker.  compress_if_needed returns the original turn itself, so
above the threshold the result is not always different from the original
content. -/
theorem compress_if_needed_counterexample :
    MESSAGE_COMPRESS_THRESHOLD <
      estimate_tokens (Msg.mk "assistant" (COMPRESS_MARKER ++ bigA 10200)).content ∧
    (compress_if_needed llmEcho (Msg.mk "assistant" (COMPRESS_MARKER ++ bigA 10200))).1 =
      Msg.mk "assistant" (COMPRESS_MARKER ++ bigA 10200) := by
  have hest : MESSAGE_COMPRESS_THRESHOLD < estimate_tokens (COMPRESS_MARKER ++ bigA 10200) := by
    unfold estimate_tokens MESSAGE_COMPRESS_THRESHOLD
    rw [String.length_append, bigA_length]
    have h1 : (10200 : Nat) / 4 ≤ (COMPRESS_MARKER.length + 10200) / 4 :=
      Nat.div_le_div_right (Nat.le_add_left _ _)
    exact Nat.lt_of_lt_of_le (by norm_num) h1
  refine ⟨hest, ?_⟩
  unfold compress_if_needed
  rw [if_pos hest]
  unfold compress_message
  rw [show llmEcho (compressRequest (Msg.mk "assistant" (COMPRESS_MARKER ++ bigA 10200)).content) =
    some (bigA 10200) from rfl]

/-- Claim C5 (amended): when every condensation call fails, no error reaches
the caller and the fallbacks are: generate_summary returns the fixed
placeholder; generate_summary_incremental returns the placeholder when no
cached summary exists (otherwise it concatenates the previous summary with the
placeholder addendum); compress_message returns the character truncation of
the original to target_tokens * 4; and compress_if_needed on an over-threshold
turn returns the provenance marker concatenated with that truncated prefix. -/
theorem degradation_behavior (llm : LLM) (hfail : ∀ ms, llm ms = none) :
    (∀ messages mt, (generate_summary llm messages mt).1 = "Story context available.") ∧
    (∀ s t, get_latest_cached_summary s = none →
      (generate_summary_incremental llm s t).1 = "Story context available.") ∧
    (∀ content target, (compress_message llm content target).1 = strTake content (target * 4)) ∧
    (∀ m, MESSAGE_COMPRESS_THRESHOLD < estimate_tokens m.content →
      (compress_if_needed llm m).1 =
        Msg.mk m.role (COMPRESS_MARKER ++ strTake m.content (MESSAGE_COMPRESSED_SIZE * 4))) := by
  have hgs : ∀ (messages : List Msg) (mt : Nat), generate_summary llm messages mt =
      ("Story context available.", [Call.summarize messages mt]) := by
    intro messages mt
    unfold generate_summary
    rw [hfail]
  have hcm : ∀ (content : String) (target : Nat), compress_message llm content target =
      (strTake content (target * 4), [Call.compress content target]) := by
    intro content target
    unfold compress_message
    rw [hfail]
  refine ⟨fun messages mt => by rw [hgs], fun s t hl => ?_, fun content target => by rw [hcm],
    fun m hm => ?_⟩
  · rw [gsi_none llm s t hl, hgs]
  · unfold compress_if_needed
    rw [if_pos hm, hcm]

/-- Witness for C5 with the always-failing oracle. -/
theorem degradation_behavior_witness :
    (generate_summary llmNone [] 2000).1 = "Story context available." :=
  (degradation_behavior llmNone (fun _ => rfl)).1 [] 2000

/-- The concrete over-threshold turn is above the compression threshold. -/
theorem msgLong_over : MESSAGE_COMPRESS_THRESHOLD < estimate_tokens msgLong.content := by
  show MESSAGE_COMPRESS_THRESHOLD < estimate_tokens (bigA 10004)
  unfold estimate_tokens MESSAGE_COMPRESS_THRESHOLD
  rw [bigA_length]
  norm_num

/-- Claim C5 counterexample: with the service always failing,
generate_summary_incremental on a session holding a previous summary returns
previous_summary + separator + placeholder, not the fixed placeholder; and
compress_if_needed on an over-threshold turn returns marker-prefixed text that
is not a character-truncated prefix of the original content. -/
theorem degradation_counterexample :
    (generate_summary_incremental llmNone (Session.mk [msgHi, msgHi, msgHi] [(1, "P")]) 3).1 ≠
      "Story context available." ∧
    MESSAGE_COMPRESS_THRESHOLD < estimate_tokens msgLong.content ∧
    (¬ ∃ k, (compress_if_needed llmNone msgLong).1.content = strTake msgLong.content k) := by
  refine ⟨by decide, msgLong_over, ?_⟩
  rintro ⟨k, hk⟩
  have hres : (compress_if_needed llmNone msgLong).1.content =
      COMPRESS_MARKER ++ strTake (bigA 10004) (MESSAGE_COMPRESSED_SIZE * 4) := by
    unfold compress_if_needed
    rw [if_pos msgLong_over]
    unfold compress_message
    rw [show llmNone (compressRequest msgLong.content) = none from rfl]
    rfl
  rw [hres] at hk
  have hd := congrArg String.data hk
  rw [String.data_append] at hd
  have hd2 : COMPRESS_MARKER.data ++ (List.replicate 10004 'a').take (MESSAGE_COMPRESSED_SIZE * 4) =
      (List.replicate 10004 'a').take k := hd
  have hh := congrArg List.head? hd2
  rw [List.head?_append] at hh
  rw [show COMPRESS_MARKER.data.head? = some '[' from rfl] at hh
  rw [List.take_replicate, List.take_replicate, List.head?_replicate,
    List.head?_replicate] at hh
  have h32 : ¬ (MESSAGE_COMPRESSED_SIZE * 4 ⊓ 10004 = 0) := by
    norm_num [MESSAGE_COMPRESSED_SIZE]
  rw [if_neg h32] at hh
  rw [show (Option.some '[').or (some 'a') = some '[' from rfl] at hh
  by_cases hk0 : k ⊓ 10004 = 0
  · rw [if_pos hk0] at hh
    exact absurd hh (by decide)
  · rw [if_neg hk0] at hh
    exact absurd hh (by decide)

/-- Claim C1 (amended): whenever the target coverage does not exceed the
number of stored turns (the delta range of a behind cache record is then
nonempty), generate_summary_incremental equals the three-case algorithm of the
spec: full-range condensation on an empty cache, the cached text unchanged
with no call when the greatest cached coverage suffices, and otherwise a
delta-range condensation concatenated after the previous summary, replaced by
a full-range condensation when the concatenation exceeds the summary budget.
When the cached coverage is behind the target but the stored turns end before
it, the source instead returns the previous summary with no call. -/
theorem gsi_refines_spec (llm : LLM) (s : Session) (target : Nat)
    (h : target ≤ count_messages s) :
    generate_summary_incremental llm s target = summarize_spec llm s target := by
  unfold generate_summary_incremental summarize_spec
  cases hl : get_latest_cached_summary s with
  | none => rfl
  | some pr =>
    obtain ⟨prev, pt⟩ := pr
    simp only
    by_cases hop : target ≤ prev
    · rw [if_pos hop, if_pos hop]
    · rw [if_neg hop, if_neg hop]
      have hne : ¬ ((get_messages_range s (prev + 1) target).isEmpty = true) := by
        rw [List.isEmpty_iff]
        intro hnil
        have hlen := congrArg List.length hnil
        unfold get_messages_range at hlen
        rw [List.length_drop, List.length_take] at hlen
        simp only [List.length_nil] at hlen
        unfold count_messages at h
        omega
      rw [if_neg hne]

/-- Witness for C1 at a one-turn session with empty cache, coverage one. -/
theorem gsi_refines_spec_witness :
    1 ≤ count_messages (Session.mk [msgHi] []) ∧
    generate_summary_incremental llmNone (Session.mk [msgHi] []) 1 =
      summarize_spec llmNone (Session.mk [msgHi] []) 1 :=
  ⟨by decide, gsi_refines_spec llmNone (Session.mk [msgHi] []) 1 (by decide)⟩

/-- Claim C1 counterexample: a session whose cached coverage is behind the
target but whose log has fewer turns than the cached coverage range requires.
The delta range is then empty, the source returns the previous summary with no
condensation call, and the three-case algorithm of the spec (which would
condense the empty delta and concatenate) disagrees. -/
theorem gsi_spec_counterexample :
    generate_summary_incremental llmS (Session.mk [msgHi] [(1, "P")]) 5 ≠
      summarize_spec llmS (Session.mk [msgHi] [(1, "P")]) 5 := by
  decide

/-- The big concrete session is a cache hit whose stored summary is huge. -/
theorem sessionBig_cache : get_cached_summary sessionBig 1 = some (bigA 200004) := by
  unfold get_cached_summary sessionBig
  rw [List.find?_cons_of_pos _ (by decide)]
  rfl

/-- Token estimates only grow when text is prepended. -/
theorem estimate_append_right (a b : String) :
    estimate_tokens b ≤ estimate_tokens (a ++ b) := by
  unfold estimate_tokens
  rw [String.length_append]
  exact Nat.div_le_div_right (Nat.le_add_left _ _)

/-- Token estimate of the letter-a string, stated generically so that
instantiating it at large lengths never makes the kernel evaluate the
string. -/
theorem estimate_tokens_bigA (n : Nat) : estimate_tokens (bigA n) = n / 4 := by
  unfold estimate_tokens
  rw [bigA_length]

/-- The summary phase on the big concrete session is a cache hit. -/
theorem sessionBig_step : summary_step llmNone sessionBig 1 = (bigA 200004, sessionBig, []) := by
  have hne : bigA 200004 ≠ "" := bigA_ne_empty 200004 (by norm_num)
  have h := summary_step_hit llmNone sessionBig 1 (bigA 200004) sessionBig_cache hne
  exact h

/-- The system segment of the big concrete session exceeds the ceiling by
itself. -/
theorem sessionBig_sys :
    MAX_INPUT_TOKENS < estimate_tokens (systemSegment (bigA 200004)).content := by
  have h2 := estimate_append_right (STORY_SYSTEM_PROMPT ++ "\n\nStory so far: ") (bigA 200004)
  have h3 := estimate_tokens_bigA 200004
  have h4 : MAX_INPUT_TOKENS = 50000 := rfl
  show MAX_INPUT_TOKENS <
    estimate_tokens (STORY_SYSTEM_PROMPT ++ "\n\nStory so far: " ++ bigA 200004)
  omega

/-- The token sum over a segment list is at least the head estimate. -/
theorem context_tokens_head_le (m : Msg) (l : List Msg) :
    estimate_tokens m.content ≤ context_tokens (m :: l) := by
  unfold context_tokens
  simp only [List.map_cons, List.sum_cons]
  exact Nat.le_add_right _ _

/-- Shape of the normal assembly on the big concrete session. -/
theorem sessionBig_assembled : assembled_context llmNone sessionBig =
    systemSegment (bigA 200004) ::
      (compress_all llmNone (get_last_n_messages sessionBig RECENT_MESSAGE_COUNT)).1 := by
  have hcount : count_messages sessionBig - RECENT_MESSAGE_COUNT = 1 := by decide
  unfold assembled_context
  rw [hcount, sessionBig_step]

/-- On the big concrete session the normal assembly exceeds the ceiling. -/
theorem sessionBig_overflow :
    MAX_INPUT_TOKENS < context_tokens (assembled_context llmNone sessionBig) := by
  rw [sessionBig_assembled]
  exact Nat.lt_of_lt_of_le sessionBig_sys (context_tokens_head_le _ _)

/-- Claim C2 counterexample: on the big concrete session the token sum of the
returned segment list exceeds MAX_INPUT_TOKENS.  The emergency rebuild keeps
the last 10 of the 10 recent segments, so it returns the oversized assembly
unchanged and no hard size guarantee holds. -/
theorem size_ceiling_counterexample :
    MAX_INPUT_TOKENS < context_tokens (build_context llmNone sessionBig "x").1 := by
  have h11 : RECENT_MESSAGE_COUNT < count_messages sessionBig := by decide
  have hout : (build_context llmNone sessionBig "x").1 = assembled_context llmNone sessionBig :=
    build_long_out MAX_INPUT_TOKENS llmNone sessionBig "x" h11
  rw [hout]
  exact sessionBig_overflow

/-- Claim C2 (amended): when the normally assembled long-path context exceeds
max_total_tokens, build_context returns the emergency rebuild, which equals
the normal assembly (the recent window is exactly the 10 turns the emergency
branch keeps), so the returned list still exceeds the ceiling; the returned
token sum is never reduced below the ceiling. -/
theorem size_ceiling_amended (llm : LLM) (s : Session) (p : String)
    (h1 : RECENT_MESSAGE_COUNT < count_messages s)
    (h2 : MAX_INPUT_TOKENS < context_tokens (assembled_context llm s)) :
    (build_context llm s p).1 = assembled_context llm s ∧
    MAX_INPUT_TOKENS < context_tokens (build_context llm s p).1 := by
  have hout := build_long_out MAX_INPUT_TOKENS llm s p h1
  refine ⟨hout, ?_⟩
  show MAX_INPUT_TOKENS < context_tokens (build_context_max MAX_INPUT_TOKENS llm s p).1
  rw [hout]
  exact h2

/-- Witness for C2 (amended) at the big concrete session. -/
theorem size_ceiling_amended_witness :
    RECENT_MESSAGE_COUNT < count_messages sessionBig ∧
    MAX_INPUT_TOKENS < context_tokens (assembled_context llmNone sessionBig) ∧
    (build_context llmNone sessionBig "x").1 = assembled_context llmNone sessionBig :=
  ⟨by decide, sessionBig_overflow,
    (size_ceiling_amended llmNone sessionBig "x" (by decide) sessionBig_overflow).1⟩

/-- Claim C8: when the assembled context exceeds max_total_tokens,
build_context returns the emergency rebuild: the same system segment plus at
most the last 10 of the already-compressed recent segments; and the trace of
condensation calls does not depend on the ceiling at all, so the emergency
step issues no new summarization or compression call. -/
theorem emergency_step_contract (llm : LLM) (s : Session) (p : String)
    (h1 : RECENT_MESSAGE_COUNT < count_messages s)
    (h2 : MAX_INPUT_TOKENS < context_tokens (assembled_context llm s)) :
    (build_context llm s p).1 = emergency_context llm s ∧
    (emergency_context llm s).length ≤ 1 + 10 ∧
    (∀ M1 M2, (build_context_max M1 llm s p).2.2 = (build_context_max M2 llm s p).2.2) := by
  refine ⟨?_, ?_, ?_⟩
  · unfold build_context
    rw [build_long MAX_INPUT_TOKENS llm s p h1]
    simp only
    rw [if_pos h2]
  · unfold emergency_context
    rw [List.length_cons, List.length_drop]
    omega
  · intro M1 M2
    rw [build_long_trace M1 llm s p h1, build_long_trace M2 llm s p h1]

/-- Witness for C8 at the big concrete session. -/
theorem emergency_step_contract_witness :
    RECENT_MESSAGE_COUNT < count_messages sessionBig ∧
    MAX_INPUT_TOKENS < context_tokens (assembled_context llmNone sessionBig) ∧
    (build_context llmNone sessionBig "x").1 = emergency_context llmNone sessionBig :=
  ⟨by decide, sessionBig_overflow,
    (emergency_step_contract llmNone sessionBig "x" (by decide) sessionBig_overflow).1⟩

/-- Rebuilding from the state a build produced returns the same output and
state, and the second trace holds only per-turn compression calls. -/
theorem build_idem (llm : LLM) (s : Session) (p : String) :
    (build_context llm (build_context llm s p).2.1 p).1 = (build_context llm s p).1 ∧
    (build_context llm (build_context llm s p).2.1 p).2.1 = (build_context llm s p).2.1 ∧
    (∀ c ∈ (build_context llm (build_context llm s p).2.1 p).2.2, c.isCompress = true) := by
  unfold build_context
  by_cases h : count_messages s ≤ RECENT_MESSAGE_COUNT
  · rw [build_short MAX_INPUT_TOKENS llm s p h]
    simp only
    rw [build_short MAX_INPUT_TOKENS llm s p h]
    exact ⟨rfl, rfl, compress_all_trace llm s.messages⟩
  · have h2 : RECENT_MESSAGE_COUNT < count_messages s := by omega
    have hs1 : (build_context_max MAX_INPUT_TOKENS llm s p).2.1 =
        (summary_step llm s (count_messages s - RECENT_MESSAGE_COUNT)).2.1 :=
      build_long_state MAX_INPUT_TOKENS llm s p h2
    have hcnt : count_messages (build_context_max MAX_INPUT_TOKENS llm s p).2.1 =
        count_messages s := by
      rw [hs1, count_messages_state]
    have h2b : RECENT_MESSAGE_COUNT <
        count_messages (build_context_max MAX_INPUT_TOKENS llm s p).2.1 := by
      rw [hcnt]; exact h2
    have holdb : count_messages (build_context_max MAX_INPUT_TOKENS llm s p).2.1 -
        RECENT_MESSAGE_COUNT = count_messages s - RECENT_MESSAGE_COUNT := by
      rw [hcnt]
    refine ⟨?_, ?_, ?_⟩
    · rw [build_long_out MAX_INPUT_TOKENS llm _ p h2b, build_long_out MAX_INPUT_TOKENS llm s p h2,
        hs1, assembled_context_state]
    · rw [build_long_state MAX_INPUT_TOKENS llm _ p h2b, holdb, hs1, summary_step_idem]
    · intro c hc
      rw [build_long_trace MAX_INPUT_TOKENS llm _ p h2b, holdb, hs1] at hc
      rw [summary_step_idem] at hc
      simp only [List.nil_append] at hc
      rw [get_last_n_state] at hc
      exact compress_all_trace llm _ c hc

/-- Claim C3 (amended): two consecutive build_context calls on the same
session with no new turns in between produce identical output and leave the
session state unchanged, and the second call triggers zero additional
summarization calls; per-turn compression, however, is re-executed on every
build (the second trace consists exactly of compression calls, one per
over-threshold recent turn). -/
theorem rebuild_idempotent (llm : LLM) (s : Session) (p : String) :
    (build_context llm (build_context llm s p).2.1 p).1 = (build_context llm s p).1 ∧
    (build_context llm (build_context llm s p).2.1 p).2.1 = (build_context llm s p).2.1 ∧
    (∀ c ∈ (build_context llm (build_context llm s p).2.1 p).2.2, c.isCompress = true) :=
  build_idem llm s p

/-- Claim C3 counterexample: on a session holding a single over-threshold
turn, the second consecutive build issues a compression call again, so its
condensation trace is not empty. -/
theorem rebuild_idempotent_counterexample :
    (build_context llmOk (build_context llmOk (Session.mk [msgLong] []) "x").2.1 "x").2.2 ≠
      [] := by
  have hshort : count_messages (Session.mk [msgLong] []) ≤ RECENT_MESSAGE_COUNT := by decide
  have htr : (compress_all llmOk [msgLong]).2 =
      [Call.compress msgLong.content MESSAGE_COMPRESSED_SIZE] := by
    unfold compress_all compress_if_needed
    rw [if_pos msgLong_over]
    unfold compress_message
    rw [show llmOk (compressRequest msgLong.content) = some "ok" from rfl]
    rfl
  unfold build_context
  rw [build_short MAX_INPUT_TOKENS llmOk (Session.mk [msgLong] []) "x" hshort]
  simp only
  rw [build_short MAX_INPUT_TOKENS llmOk (Session.mk [msgLong] []) "x" hshort]
  simp only
  rw [htr]
  simp

/-- Claim C9 (amended): on the long path with an empty summary cache and an
always-failing condensation service, build_context stores the fixed
placeholder text under (session, old_count); the next build on the stored
state then returns identical output, leaves the state unchanged, and issues no
summarization call at all (only compression calls can occur), so summarization
is never retried while old_count stays the same.  When a lower-coverage cached
summary already exists, the stored degraded text is instead the concatenation
previous_summary + separator + placeholder. -/
theorem degraded_summary_caching (llm : LLM) (hfail : ∀ ms, llm ms = none)
    (s : Session) (p : String)
    (h1 : RECENT_MESSAGE_COUNT < count_messages s)
    (h2 : get_latest_cached_summary s = none) :
    get_cached_summary (build_context llm s p).2.1 (count_messages s - RECENT_MESSAGE_COUNT) =
      some "Story context available." ∧
    (build_context llm (build_context llm s p).2.1 p).1 = (build_context llm s p).1 ∧
    (build_context llm (build_context llm s p).2.1 p).2.1 = (build_context llm s p).2.1 ∧
    (∀ msgs mt, Call.summarize msgs mt ∉ (build_context llm (build_context llm s p).2.1 p).2.2) := by
  obtain ⟨hout, hstate, htrace⟩ := build_idem llm s p
  refine ⟨?_, hout, hstate, ?_⟩
  · have hcache0 : s.cache = [] := (latestAux_none_iff s.cache).mp h2
    have hmiss : get_cached_summary s (count_messages s - RECENT_MESSAGE_COUNT) = none := by
      unfold get_cached_summary
      rw [hcache0]
      rfl
    have hgsi : generate_summary_incremental llm s (count_messages s - RECENT_MESSAGE_COUNT) =
        ("Story context available.",
         [Call.summarize
           (get_messages_range s 1 (count_messages s - RECENT_MESSAGE_COUNT))
           SUMMARY_MAX_TOKENS]) := by
      rw [gsi_none llm s _ h2]
      unfold generate_summary
      rw [hfail]
    unfold build_context
    rw [build_long_state MAX_INPUT_TOKENS llm s p h1]
    rw [summary_step_miss llm s _ (Or.inl hmiss)]
    simp only
    rw [hgsi]
    exact get_cached_cache_summary s _ _
  · intro msgs mt hmem
    have hc := htrace _ hmem
    simp [Call.isCompress] at hc

/-- Witness for C9 at thirteen short turns and empty cache: the placeholder is
stored under coverage three. -/
theorem degraded_summary_caching_witness :
    RECENT_MESSAGE_COUNT < count_messages sessionThirteen ∧
    get_latest_cached_summary sessionThirteen = none ∧
    get_cached_summary (build_context llmNone sessionThirteen "x").2.1
      (count_messages sessionThirteen - RECENT_MESSAGE_COUNT) = some "Story context available." :=
  ⟨by decide, rfl,
    (degraded_summary_caching llmNone (fun _ => rfl) sessionThirteen "x" (by decide) rfl).1⟩

set_option maxRecDepth 8000 in
/-- Claim C9 counterexample: when a lower-coverage summary is already cached,
the failing long-path build stores previous summary + separator + placeholder
under (session, old_count), not the fixed placeholder text. -/
theorem degraded_summary_counterexample :
    get_cached_summary (build_context llmNone sessionThirteenP "x").2.1 3 =
      some "P\n\nRecent developments: Story context available." ∧
    get_cached_summary (build_context llmNone sessionThirteenP "x").2.1 3 ≠
      some "Story context available." := by
  constructor
  · decide
  · decide

/-- Witness for C3 at a one-turn session: the rebuilt output is unchanged. -/
theorem rebuild_idempotent_witness :
    (build_context llmNone (build_context llmNone (Session.mk [msgHi] []) "x").2.1 "x").1 =
      (build_context llmNone (Session.mk [msgHi] []) "x").1 :=
  (rebuild_idempotent llmNone (Session.mk [msgHi] []) "x").1
